import Mathlib

/-!
Verification development for the `projector` project catalog tool.

The development shallowly embeds the Go source of the directory-scanning
and classification engine (`pkg/scanner`), the project model (`pkg/models`),
the catalog merge logic (`cmd` helpers), and the path expansion utilities
(`pkg/paths`).

Modelling conventions:
* Filesystem paths are modelled as lists of path segments
  (`filepath.Join(folder, name)` becomes `folder ++ [name]`,
  `filepath.Base` becomes the last segment).
* The filesystem itself is a record of the three OS primitives the scanner
  uses: `os.Stat`, `os.ReadDir` and `filepath.EvalSymlinks`.  A symbolic
  link may resolve to an arbitrary path, so cyclic link structures are
  expressible.
* The error-handler callback (`Scanner.logError`) is modelled by returning
  the chronological list of reported `(path, kind)` pairs alongside the
  scan results.
* Go `int` values that can be negative (the recursion depth and
  `maxDepth`) are modelled as `Int`; counters that stay non-negative are
  `Nat`.
-/

namespace Projector

/-- `models.ProjectKind` (a Go string enum with six values). -/
inductive ProjectKind where
  | Favorite
  | Git
  | SVN
  | Mercurial
  | VSCode
  | Any
deriving DecidableEq, Repr

/-- `models.Project`: one discovered or saved unit of work.
`RootPath` is a segment list (see the modelling conventions). -/
structure Project where
  Name : String
  RootPath : List String
  Tags : List String
  Enabled : Bool
  Kind : ProjectKind
deriving DecidableEq, Repr

/-- `models.Project.HasTag`: linear scan for an exactly equal tag. -/
def Project.HasTag (p : Project) (tag : String) : Bool :=
  p.Tags.any (fun t => t = tag)

/-- One entry of `os.ReadDir`: a name plus the directory and symlink mode
bits.  The two bits are kept independent, exactly as the Go code reads
them (`entry.IsDir()` and `entry.Type()&os.ModeSymlink`). -/
structure DirEntry where
  name : String
  isDir : Bool
  isSymlink : Bool
deriving DecidableEq, Repr

/-- Result of `os.Stat`: success (with the `IsDir` bit), a not-exist
error, or any other error. -/
inductive StatResult where
  | ok (isDir : Bool)
  | notExist
  | statErr
deriving DecidableEq, Repr

/-- The filesystem as seen through the three OS primitives used by the
scanner.  `readDir p = none` models a failing `os.ReadDir`; `resolve p =
none` models a failing `filepath.EvalSymlinks`. -/
structure Fs where
  stat : List String → StatResult
  readDir : List String → Option (List DirEntry)
  resolve : List String → Option (List String)

/-- Kinds of non-fatal errors funnelled through the error handler. -/
inductive ScanErrKind where
  | baseNotExist
  | readDirFailed
  | symlinkFailed
deriving DecidableEq, Repr

/-- One report delivered to the error handler: path and error kind. -/
abbrev ScanReport : Type := List String × ScanErrKind

/-- `scanner.ScannerGit` (the Go `ScannerType` is a string). -/
def ScannerGit : String := "git"

/-- `scanner.ScannerSVN`. -/
def ScannerSVN : String := "svn"

/-- `scanner.ScannerMercurial`. -/
def ScannerMercurial : String := "mercurial"

/-- `scanner.ScannerVSCode`. -/
def ScannerVSCode : String := "vscode"

/-- `scanner.ScannerAny`. -/
def ScannerAny : String := "any"

/-- `scanner.Scanner`: the traversal configuration.  The error handler is
modelled by the returned report list instead of a stored callback. -/
structure Scanner where
  baseFolders : List (List String)
  ignoredFolders : List String
  maxDepth : Int
  scannerType : String
  ignoreWithinProjects : Bool
  supportSymlinks : Bool
deriving DecidableEq, Repr

/-- `scanner.NewScanner`: the default configuration. -/
def NewScanner (scannerType : String) : Scanner :=
  { baseFolders := []
    ignoredFolders := ["node_modules", "out", "typings", "test", "vendor"]
    maxDepth := 4
    scannerType := scannerType
    ignoreWithinProjects := false
    supportSymlinks := false }

/-- `Scanner.SetMaxDepth`: stores the depth without any validation. -/
def Scanner.SetMaxDepth (s : Scanner) (depth : Int) : Scanner :=
  { s with maxDepth := depth }

/-- `Scanner.SetIgnoredFolders`. -/
def Scanner.SetIgnoredFolders (s : Scanner) (folders : List String) : Scanner :=
  { s with ignoredFolders := folders }

/-- `Scanner.SetIgnoreWithinProjects`. -/
def Scanner.SetIgnoreWithinProjects (s : Scanner) (ignore : Bool) : Scanner :=
  { s with ignoreWithinProjects := ignore }

/-- `Scanner.SetSupportSymlinks`. -/
def Scanner.SetSupportSymlinks (s : Scanner) (support : Bool) : Scanner :=
  { s with supportSymlinks := support }

/-- Parse the body of a character class of Go's `path/filepath.Match`
pattern language (the part after the opening bracket and the optional
`^`): a non-empty sequence of single characters or `lo-hi` ranges,
possibly backslash-escaped, closed by a bracket.  Returns the ranges and
the pattern rest after the closing bracket, or `none` for a malformed
class (Go's `ErrBadPattern`).  The `Nat` argument is fuel; each step
consumes at least one pattern character, so `length + 1` always
suffices. -/
def parseClassRanges : Nat → List Char → List (Char × Char) →
    Option (List (Char × Char) × List Char)
  | 0, _, _ => none
  | fuel + 1, cs, acc =>
    match cs with
    | [] => none
    | ']' :: rest => if acc.isEmpty then none else some (acc.reverse, rest)
    | '-' :: _ => none
    | '\\' :: [] => none
    | '\\' :: lo :: rest =>
      (match rest with
       | '-' :: [] => none
       | '-' :: ']' :: _ => none
       | '-' :: '-' :: _ => none
       | '-' :: '\\' :: [] => none
       | '-' :: '\\' :: hi :: rest2 => parseClassRanges fuel rest2 ((lo, hi) :: acc)
       | '-' :: hi :: rest2 => parseClassRanges fuel rest2 ((lo, hi) :: acc)
       | _ => parseClassRanges fuel rest ((lo, lo) :: acc))
    | lo :: rest =>
      (match rest with
       | '-' :: [] => none
       | '-' :: ']' :: _ => none
       | '-' :: '-' :: _ => none
       | '-' :: '\\' :: [] => none
       | '-' :: '\\' :: hi :: rest2 => parseClassRanges fuel rest2 ((lo, hi) :: acc)
       | '-' :: hi :: rest2 => parseClassRanges fuel rest2 ((lo, hi) :: acc)
       | _ => parseClassRanges fuel rest ((lo, lo) :: acc))

/-- Modelled from Go's standard library `path/filepath.Match` (an
external collaborator of the scanner), restricted to a single path
segment: a star matches any run of non-separator characters, a question
mark one non-separator character, a bracketed class one character of its
ranges (negated by a leading `^`), a backslash escapes the following
character, and any other character matches itself.  A malformed pattern
yields `false`, as `Scanner.isIgnored` discards `Match`'s error value.
This is the core matcher over character lists; the `Nat` argument is fuel
(each step consumes pattern and/or name, so `globMatch`'s initial fuel is
always sufficient). -/
def globMatchAux : Nat → List Char → List Char → Bool
  | 0, _, _ => false
  | _ + 1, [], s => s.isEmpty
  | fuel + 1, '*' :: ps, s =>
    globMatchAux fuel ps s ||
      (match s with
       | [] => false
       | c :: rest => c ≠ '/' && globMatchAux fuel ('*' :: ps) rest)
  | fuel + 1, '?' :: ps, s =>
    (match s with
     | [] => false
     | c :: rest => c ≠ '/' && globMatchAux fuel ps rest)
  | fuel + 1, '\\' :: ps, s =>
    (match ps, s with
     | pc :: ps', c :: rest => pc = c && globMatchAux fuel ps' rest
     | _, _ => false)
  | fuel + 1, '[' :: ps, s =>
    (let (negated, body) :=
      match ps with
      | '^' :: t => (true, t)
      | _ => (false, ps)
    match parseClassRanges (body.length + 1) body [] with
    | none => false
    | some (ranges, rest) =>
      match s with
      | [] => false
      | c :: srest =>
        (ranges.any (fun r => r.1 ≤ c && c ≤ r.2)) != negated
          && globMatchAux fuel rest srest)
  | fuel + 1, pc :: ps, s =>
    (match s with
     | [] => false
     | c :: rest => pc = c && globMatchAux fuel ps rest)

/-- `filepath.Match pattern name` for a single segment. -/
def globMatch (pattern name : String) : Bool :=
  globMatchAux (pattern.length + name.length + 1) pattern.data name.data

/-- `Scanner.isIgnored`: an entry containing `*` is used as a glob
pattern, any other entry must be equal to the name. -/
def isIgnored (ignoredFolders : List String) (name : String) : Bool :=
  ignoredFolders.any fun ignored =>
    if ignored.data.contains '*' then globMatch ignored name
    else name = ignored

/-- `scanner.dirExists`: `os.Stat` succeeds and reports a directory. -/
def dirExists (fs : Fs) (p : List String) : Bool :=
  match fs.stat p with
  | .ok d => d
  | _ => false

/-- `scanner.fileExistsWithExt`: some non-directory entry of the folder
has the given suffix; a failing `ReadDir` counts as not found. -/
def fileExistsWithExt (fs : Fs) (folder : List String) (ext : String) : Bool :=
  match fs.readDir folder with
  | none => false
  | some entries => entries.any fun e => !e.isDir && ext.data.isSuffixOf e.name.data

/-- `Scanner.isProject`: marker test for the scanner's type. -/
def isProject (fs : Fs) (s : Scanner) (folder : List String) : Bool :=
  if s.scannerType = ScannerGit then dirExists fs (folder ++ [".git"])
  else if s.scannerType = ScannerSVN then dirExists fs (folder ++ [".svn"])
  else if s.scannerType = ScannerMercurial then dirExists fs (folder ++ [".hg"])
  else if s.scannerType = ScannerVSCode then fileExistsWithExt fs folder ".code-workspace"
  else if s.scannerType = ScannerAny then true
  else false

/-- `Scanner.getProjectKind`: scanner type to project kind, with the
Go switch's default branch mapping unknown types to `KindFavorite`. -/
def getProjectKind (scannerType : String) : ProjectKind :=
  if scannerType = ScannerGit then .Git
  else if scannerType = ScannerSVN then .SVN
  else if scannerType = ScannerMercurial then .Mercurial
  else if scannerType = ScannerVSCode then .VSCode
  else if scannerType = ScannerAny then .Any
  else .Favorite

/-- `filepath.Base` on a segment list: the last segment. -/
def pathBase (p : List String) : String :=
  p.getLast?.getD "."

/-- The project record built by `scanFolder` when a folder qualifies. -/
def mkProject (s : Scanner) (folder : List String) : Project :=
  { Name := pathBase folder
    RootPath := folder
    Tags := []
    Enabled := true
    Kind := getProjectKind s.scannerType }

/-- The child loop of `Scanner.scanFolder` (lines iterating over
`os.ReadDir` entries): skips non-directories, dot-directories other than
`.vscode`, ignored names, and unfollowed or unresolvable symlinks, and
calls `child` (the recursive scan at depth+1) on the surviving,
possibly symlink-resolved child paths.  Results and reports are
concatenated in traversal order. -/
def scanEntries (fs : Fs) (s : Scanner)
    (child : List String → List Project × List ScanReport)
    (folder : List String) : List DirEntry → List Project × List ScanReport
  | [] => ([], [])
  | e :: es =>
    let rest := scanEntries fs s child folder es
    if !e.isDir then rest
    else if ['.'].isPrefixOf e.name.data && e.name ≠ ".vscode" then rest
    else if isIgnored s.ignoredFolders e.name then rest
    else
      let subPath := folder ++ [e.name]
      if e.isSymlink then
        if !s.supportSymlinks then rest
        else
          match fs.resolve subPath with
          | none => (rest.1, (subPath, .symlinkFailed) :: rest.2)
          | some resolved =>
            let c := child resolved
            (c.1 ++ rest.1, c.2 ++ rest.2)
      else
        let c := child subPath
        (c.1 ++ rest.1, c.2 ++ rest.2)

/-- `Scanner.scanFolder`, with the depth bookkeeping expressed as the
remaining depth budget: a call of `scanFolderAux` with budget `n`
corresponds to a Go call `scanFolder(folder, depth, inside)` with
`n = maxDepth + 1 - depth`; budget `0` is the `depth > maxDepth` early
return.  `scanFolder` below restates this in the source's terms.
The Go function's error result is always `nil` (its recursive-call error
branch is unreachable), so no error component is modelled. -/
def scanFolderAux (fs : Fs) (s : Scanner) :
    Nat → List String → Bool → List Project × List ScanReport
  | 0, _, _ => ([], [])
  | fuel + 1, folder, insideProject =>
    let isProj := isProject fs s folder
    let emitted :=
      if isProj && (!s.ignoreWithinProjects || !insideProject) then
        [mkProject s folder]
      else []
    let inside' := insideProject || isProj
    match fs.readDir folder with
    | none => (emitted, [(folder, .readDirFailed)])
    | some entries =>
      let c := scanEntries fs s (fun p => scanFolderAux fs s fuel p inside') folder entries
      (emitted ++ c.1, c.2)

/-- `Scanner.scanFolder(folder, depth, insideProject)`. -/
def scanFolder (fs : Fs) (s : Scanner) (folder : List String) (depth : Int)
    (insideProject : Bool) : List Project × List ScanReport :=
  scanFolderAux fs s (s.maxDepth + 1 - depth).toNat folder insideProject

/-- The base-folder loop of `Scanner.Scan`: a base whose `os.Stat` fails
with not-exist is reported and skipped, every other base is scanned from
depth 0 with the inside-project flag cleared. -/
def scanBases (fs : Fs) (s : Scanner) :
    List (List String) → List Project × List ScanReport
  | [] => ([], [])
  | b :: bs =>
    let rest := scanBases fs s bs
    if fs.stat b = .notExist then
      (rest.1, (b, .baseNotExist) :: rest.2)
    else
      let r := scanFolder fs s b 0 false
      (r.1 ++ rest.1, r.2 ++ rest.2)

/-- The `seen` map of `Scanner.Scan`: keep only the first project for
each root path, in stream order. -/
def dedupByPath : List Project → List (List String) → List Project
  | [], _ => []
  | p :: rest, seen =>
    if p.RootPath ∈ seen then dedupByPath rest seen
    else p :: dedupByPath rest (p.RootPath :: seen)

/-- The first loop of `scanner.deduplicateNames`: occurrences of a name
in the whole list. -/
def countName (ps : List Project) (n : String) : Nat :=
  (ps.filter (fun p => p.Name = n)).length

/-- The second loop of `scanner.deduplicateNames`: a single pass in list
order; `seen` carries how many occurrences of each (original) name have
been processed so far. -/
def dedupPass (count : String → Nat) : List Project → (String → Nat) → List Project
  | [], _ => []
  | p :: rest, seen =>
    if count p.Name > 1 then
      let k := seen p.Name + 1
      let seen' := fun n => if n = p.Name then k else seen n
      let p' := if k = 1 then p else { p with Name := p.Name ++ "-" ++ toString k }
      p' :: dedupPass count rest seen'
    else
      p :: dedupPass count rest seen

/-- `scanner.deduplicateNames`: suffix the 2nd, 3rd, … occurrence of
each duplicated name with `-2`, `-3`, …, in list order. -/
def deduplicateNames (ps : List Project) : List Project :=
  dedupPass (countName ps) ps (fun _ => 0)

/-- `Scanner.Scan`: process the base folders, deduplicate by root path,
deduplicate names.  The Go method's only return statement is
`return projects, nil`, so the success constructor is the only outcome;
the `error` component of the Go signature is kept to make that fact a
statable property. -/
def Scanner.Scan (s : Scanner) (fs : Fs) :
    Except String (List Project × List ScanReport) :=
  let raw := scanBases fs s s.baseFolders
  Except.ok (deduplicateNames (dedupByPath raw.1 []), raw.2)

/-- The `--depth` flag validation performed by the CLI `scan` command
(`runScan` in `cmd/open.go`) before any scanner is constructed:
a negative value is rejected with an error, everything else passes. -/
def runScanDepthCheck (scanDepth : Int) : Option String :=
  if scanDepth < 0 then
    some "--depth must be a non-negative integer"
  else none

/-! ### Path expansion (`pkg/paths`)

`paths.Expand` and `paths.Collapse` operate on strings; they are
embedded over character lists.  The resolved home directory
(`os.UserHomeDir`) is passed as a parameter; the Go fail-soft branch for
an unresolvable home directory (return the input unchanged) is outside
this parameterisation. -/

/-- Go's `strings.Replace(s, old, new, 1)`: replace the first occurrence
of `old` in `s` (an empty `old` inserts `new` at the start); if `old`
does not occur, return `s` unchanged. -/
def replaceFirst (s old new : List Char) : List Char :=
  if old.isPrefixOf s then new ++ s.drop old.length
  else
    match s with
    | [] => []
    | c :: rest => c :: replaceFirst rest old new

/-- The literal `"$home"` prefix checked by `paths.Expand`. -/
def homeLower : List Char := ['$', 'h', 'o', 'm', 'e']

/-- The literal `"$HOME"` prefix checked by `paths.Expand`. -/
def homeUpper : List Char := ['$', 'H', 'O', 'M', 'E']

/-- `paths.Expand`: successively rewrite a leading `~`, `$home`, `$HOME`
to the home directory (each replacement applies to the result of the
previous step, as in the Go source's sequential `if` statements). -/
def Expand (home p : List Char) : List Char :=
  let p1 := if ['~'].isPrefixOf p then replaceFirst p ['~'] home else p
  let p2 := if homeLower.isPrefixOf p1 then replaceFirst p1 homeLower home else p1
  if homeUpper.isPrefixOf p2 then replaceFirst p2 homeUpper home else p2

/-- `paths.Collapse`: rewrite a leading home directory to `~`. -/
def Collapse (home p : List Char) : List Char :=
  if home.isPrefixOf p then replaceFirst p home ['~'] else p

/-! ### Catalog merge (`cmd` helpers: `LoadFilteredProjects`,
`FilterEnabled`, `FilterByTag`) -/

/-- `cmd.TypeFilter`: which project types to include. -/
structure TypeFilter where
  Favorites : Bool
  Git : Bool
  SVN : Bool
  Mercurial : Bool
  VSCode : Bool
  Any : Bool
deriving DecidableEq, Repr

/-- `TypeFilter.ShowAll`: true when no specific type is requested. -/
def TypeFilter.ShowAll (f : TypeFilter) : Bool :=
  !f.Favorites && !f.Git && !f.SVN && !f.Mercurial && !f.VSCode && !f.Any

/-- `models.ProjectList` (the favorites record set). -/
structure ProjectList where
  Projects : List Project
  Kind : ProjectKind
deriving DecidableEq, Repr

/-- `storage.CachedProjects`: the per-kind cache buckets. -/
structure CachedProjects where
  Git : List Project
  SVN : List Project
  Mercurial : List Project
  VSCode : List Project
  Any : List Project
deriving DecidableEq, Repr

/-- The storage collaborator as seen by `LoadFilteredProjects`: the two
load operations with their possible failures. -/
structure Storage where
  LoadProjects : Except String ProjectList
  LoadCache : Except String CachedProjects

/-- `cmd.LoadFilteredProjects`: favorites first (a load failure is a hard
error), then the requested cache buckets in the order Git, SVN,
Mercurial, VSCode, Any (a cache load failure silently skips all cache
buckets, per the `err == nil` guard in the source). -/
def LoadFilteredProjects (store : Storage) (filter : TypeFilter) :
    Except String (List Project) :=
  let showAll := filter.ShowAll
  let favPart : Except String (List Project) :=
    if showAll || filter.Favorites then
      match store.LoadProjects with
      | .error e => .error ("failed to load projects: " ++ e)
      | .ok pl => .ok pl.Projects
    else .ok []
  match favPart with
  | .error e => .error e
  | .ok favs =>
    let rest : List Project :=
      if showAll || filter.Git || filter.SVN || filter.Mercurial
          || filter.VSCode || filter.Any then
        match store.LoadCache with
        | .error _ => []
        | .ok cache =>
          (if showAll || filter.Git then cache.Git else []) ++
          (if showAll || filter.SVN then cache.SVN else []) ++
          (if showAll || filter.Mercurial then cache.Mercurial else []) ++
          (if showAll || filter.VSCode then cache.VSCode else []) ++
          (if showAll || filter.Any then cache.Any else [])
      else []
    .ok (favs ++ rest)

/-- `cmd.FilterEnabled`: keep only enabled projects. -/
def FilterEnabled (projects : List Project) : List Project :=
  projects.filter (fun p => p.Enabled)

/-- `cmd.FilterByTag`: no-op for the empty tag, otherwise keep projects
carrying the tag. -/
def FilterByTag (projects : List Project) (tag : String) : List Project :=
  if tag = "" then projects
  else projects.filter (fun p => p.HasTag tag)

/-- The canonical kind order stated by the specification:
Favorite, Git, SVN, Mercurial, VSCode, Any. -/
def canonicalKindOrder : List ProjectKind :=
  [.Favorite, .Git, .SVN, .Mercurial, .VSCode, .Any]

/-- Specification-side view of the type filter: a kind is requested when
no filter is set at all or its flag is set. -/
def kindRequested (f : TypeFilter) : ProjectKind → Bool
  | .Favorite => f.ShowAll || f.Favorites
  | .Git => f.ShowAll || f.Git
  | .SVN => f.ShowAll || f.SVN
  | .Mercurial => f.ShowAll || f.Mercurial
  | .VSCode => f.ShowAll || f.VSCode
  | .Any => f.ShowAll || f.Any

/-- The in-memory bucket for each kind. -/
def kindBucket (favs : List Project) (cache : CachedProjects) :
    ProjectKind → List Project
  | .Favorite => favs
  | .Git => cache.Git
  | .SVN => cache.SVN
  | .Mercurial => cache.Mercurial
  | .VSCode => cache.VSCode
  | .Any => cache.Any

/-- Specification-side merge, written directly from the spec's words:
concatenate the requested kinds' buckets in the canonical order,
preserving within-kind input order. -/
def specMerge (favs : List Project) (cache : CachedProjects)
    (f : TypeFilter) : List Project :=
  ((canonicalKindOrder.filter (kindRequested f)).map
    (kindBucket favs cache)).flatten

/-! ### Specification-side restatement of name deduplication -/

/-- Specification-side name deduplication, following the spec's words
positionally: `all` is the whole input list, `pre` the already-processed
prefix; an element whose name occurs more than once in `all` and is the
k-th occurrence of that name (k counted over `pre` plus itself) with
k ≥ 2 is renamed to `name-k`, every other element is unchanged. -/
def specDedupFrom (all : List Project) : List Project → List Project → List Project
  | _, [] => []
  | pre, p :: rest =>
    let k := countName (pre ++ [p]) p.Name
    let p' :=
      if countName all p.Name > 1 ∧ 2 ≤ k then
        { p with Name := p.Name ++ "-" ++ toString k }
      else p
    p' :: specDedupFrom all (pre ++ [p]) rest

/-- Specification-side name deduplication over a whole list. -/
def specDedupNames (ps : List Project) : List Project :=
  specDedupFrom ps [] ps

/-! ### Derived accessors and scenario fixtures for the theorems -/

/-- The project list produced by `Scanner.Scan` (the success payload's
first component). -/
def scanProjects (s : Scanner) (fs : Fs) : List Project :=
  match s.Scan fs with
  | .ok r => r.1
  | .error _ => []

/-- The error reports produced by `Scanner.Scan`. -/
def scanReports (s : Scanner) (fs : Fs) : List ScanReport :=
  match s.Scan fs with
  | .ok r => r.2
  | .error _ => []

/-- A segment is admissible on a traversal path below a base: it is not
a skipped dot-name and not ignored. -/
def goodSeg (s : Scanner) (seg : String) : Prop :=
  (['.'].isPrefixOf seg.data && seg ≠ ".vscode") = false ∧
    isIgnored s.ignoredFolders seg = false

instance (s : Scanner) (seg : String) : Decidable (goodSeg s seg) := by
  unfold goodSeg
  infer_instance

/-- The directory `N` levels below the base `t` in the chain scenario. -/
def chainPath (k : Nat) : List String :=
  "t" :: List.replicate k "a"

/-- Whether a path is one of the chain directories `t/a/…/a` (at most
`N` levels deep). -/
def isChainDir (N : Nat) (p : List String) : Bool :=
  p.head? = some "t" && p.tail.length ≤ N && p.tail.all (· = "a")

/-- Chain scenario filesystem: directories `t, t/a, …, t/a^N`, with a
`.git` marker directory only under the deepest one. -/
def chainFs (N : Nat) : Fs where
  stat p :=
    if p = chainPath N ++ [".git"] then .ok true
    else if isChainDir N p then .ok true
    else .notExist
  readDir p :=
    if isChainDir N p then
      if p.tail.length < N then some [⟨"a", true, false⟩]
      else some [⟨".git", true, false⟩]
    else none
  resolve _ := none

/-- A Git scanner over base `t` with the given maximum depth. -/
def chainScanner (m : Int) : Scanner :=
  { (NewScanner ScannerGit).SetMaxDepth m with baseFolders := [["t"]] }

/-- Nested-project scenario filesystem: `.git` markers under `t/p` and
`t/p/sub`. -/
def nestFs : Fs where
  stat p :=
    if p = ["t"] ∨ p = ["t", "p"] ∨ p = ["t", "p", ".git"]
        ∨ p = ["t", "p", "sub"] ∨ p = ["t", "p", "sub", ".git"] then .ok true
    else .notExist
  readDir p :=
    if p = ["t"] then some [⟨"p", true, false⟩]
    else if p = ["t", "p"] then some [⟨".git", true, false⟩, ⟨"sub", true, false⟩]
    else if p = ["t", "p", "sub"] then some [⟨".git", true, false⟩]
    else none
  resolve _ := none

/-- The nested scenario scanner, with or without suppression. -/
def nestScanner (suppress : Bool) : Scanner :=
  { (NewScanner ScannerGit).SetIgnoreWithinProjects suppress with
      baseFolders := [["t"]] }

/-- Cyclic-symlink scenario filesystem: every chain directory contains a
symlink `loop` that resolves back to the base `t`. -/
def cycFs : Fs where
  stat p := if p.head? = some "t" then .ok true else .notExist
  readDir _ := some [⟨"loop", true, true⟩]
  resolve _ := some ["t"]

/-- An `Any` scanner over base `t` following symlinks, with the given
maximum depth. -/
def cycScanner (m : Nat) : Scanner :=
  { ((NewScanner ScannerAny).SetSupportSymlinks true).SetMaxDepth (m : Int) with
      baseFolders := [["t"]] }

/-- Ignore-exclusion scenario: a base folder that itself lies below a
directory named `node_modules`, containing a Git marker. -/
def underIgnoredFs : Fs where
  stat p :=
    if p = ["node_modules", "x"] ∨ p = ["node_modules", "x", ".git"] then .ok true
    else .notExist
  readDir p :=
    if p = ["node_modules", "x"] then some [⟨".git", true, false⟩] else none
  resolve _ := none

/-- Scanner for the ignore-exclusion scenario: default ignore list
(which contains `node_modules`), base folder `node_modules/x`. -/
def underIgnoredScanner : Scanner :=
  { NewScanner ScannerGit with baseFolders := [["node_modules", "x"]] }

/-- A project fixture for the name-deduplication examples. -/
def namedProject (n : String) (p : List String) : Project :=
  { Name := n, RootPath := p, Tags := [], Enabled := true, Kind := .Git }

/-- Input list for the name-collision edge case: `api`, `api-2`, `api`
in discovery order, at three distinct paths. -/
def collisionInput : List Project :=
  [namedProject "api" ["x"], namedProject "api-2" ["y"], namedProject "api" ["z"]]

/-- A concrete storage fixture for the merge witnesses: one favorite and
one project in each cache bucket. -/
def mergeStore : Storage :=
  { LoadProjects := .ok ⟨[namedProject "fav" ["f"]], .Favorite⟩
    LoadCache := .ok ⟨[namedProject "g" ["g"]], [namedProject "s" ["s"]],
      [namedProject "h" ["h"]], [namedProject "v" ["v"]],
      [namedProject "a" ["a"]]⟩ }

/-- The empty type filter (no specific type requested). -/
def noFilter : TypeFilter := ⟨false, false, false, false, false, false⟩

/-! ## Lemmas -/

/-- `strings.Replace(s, old, new, 1)` when `old` is a prefix of `s`:
the prefix itself is the first occurrence. -/
lemma replaceFirst_head (s old new : List Char)
    (h : old.isPrefixOf s = true) :
    replaceFirst s old new = new ++ s.drop old.length := by
  rw [replaceFirst.eq_def, if_pos h]

/-- The depth budget of a call at a depth beyond the limit is zero, so
the call returns an empty result: the early return of `scanFolder`. -/
lemma scanFolder_depth_exceeded (fs : Fs) (s : Scanner) (folder : List String)
    (d : Int) (ins : Bool) (h : s.maxDepth < d) :
    scanFolder fs s folder d ins = ([], []) := by
  unfold scanFolder
  have hz : (s.maxDepth + 1 - d).toNat = 0 := by omega
  rw [hz]
  rfl

/-- `scanEntries` only depends on the child function's values. -/
lemma scanEntries_congr (fs : Fs) (s : Scanner)
    (child₁ child₂ : List String → List Project × List ScanReport)
    (folder : List String) (es : List DirEntry)
    (h : ∀ p, child₁ p = child₂ p) :
    scanEntries fs s child₁ folder es = scanEntries fs s child₂ folder es := by
  induction es with
  | nil => rfl
  | cons e es ih => simp only [scanEntries, ih, h]

/-- The chain path one level deeper. -/
lemma chainPath_succ (k : Nat) : chainPath k ++ ["a"] = chainPath (k + 1) := by
  simp [chainPath, List.replicate_succ']

/-- Chain paths are injective in the depth. -/
lemma chainPath_inj {k n : Nat} : chainPath k = chainPath n ↔ k = n := by
  constructor
  · intro h
    have := congrArg List.length h
    simpa [chainPath] using this
  · intro h
    rw [h]

/-- The `.git` marker path test in the chain filesystem. -/
lemma chain_stat_git (N k : Nat) :
    (chainFs N).stat (chainPath k ++ [".git"]) =
      if k = N then .ok true else .notExist := by
  have hchain : isChainDir N (chainPath k ++ [".git"]) = false := by
    simp [isChainDir, chainPath]
  by_cases h : k = N
  · subst h
    simp [chainFs]
  · have hne : chainPath k ++ [".git"] ≠ chainPath N ++ [".git"] := by
      intro hc
      exact h (chainPath_inj.mp (by simpa using hc))
    simp [chainFs, hne, hchain, h]

/-- The project marker test along the chain: only the deepest chain
directory carries `.git`. -/
lemma isProject_chain (N k : Nat) (m : Int) :
    isProject (chainFs N) (chainScanner m) (chainPath k) = decide (k = N) := by
  have hty : (chainScanner m).scannerType = ScannerGit := rfl
  rw [isProject, hty]
  rw [if_pos rfl]
  rw [dirExists, chain_stat_git]
  by_cases h : k = N <;> simp [h]

/-- Directory listing along the chain. -/
lemma chain_readDir (N k : Nat) (hk : k ≤ N) :
    (chainFs N).readDir (chainPath k) =
      if k < N then some [⟨"a", true, false⟩] else some [⟨".git", true, false⟩] := by
  have hchain : isChainDir N (chainPath k) = true := by
    simp [isChainDir, chainPath, hk]
  have hlen : (chainPath k).length = k + 1 := by
    simp [chainPath]
  simp [chainFs, hchain, hlen]

/-- Core chain computation: a scan started at level `k` of the chain
finds the deep project iff the remaining depth budget covers the
remaining `N - k` levels. -/
lemma chain_scanFolderAux (N : Nat) (m : Int) :
    ∀ (fuel : Nat) (k : Nat) (ins : Bool), k ≤ N →
      scanFolderAux (chainFs N) (chainScanner m) fuel (chainPath k) ins =
        (if N - k + 1 ≤ fuel then [mkProject (chainScanner m) (chainPath N)] else [],
         []) := by
  intro fuel
  induction fuel with
  | zero =>
    intro k ins _
    have : ¬ (N - k + 1 ≤ 0) := by omega
    simp [scanFolderAux, this]
  | succ fuel ih =>
    intro k ins hk
    rw [scanFolderAux]
    simp only [isProject_chain]
    have hign : (chainScanner m).ignoredFolders
        = ["node_modules", "out", "typings", "test", "vendor"] := rfl
    have hsup : (chainScanner m).ignoreWithinProjects = false := rfl
    by_cases hkN : k = N
    · rw [hkN]
      rw [chain_readDir N N le_rfl]
      simp [scanEntries, hsup]
    · have hklt : k < N := lt_of_le_of_ne hk hkN
      rw [chain_readDir N k hk, if_pos hklt]
      have hni : isIgnored (chainScanner m).ignoredFolders "a" = false := by
        rw [hign]; decide
      have hrec := ih (k + 1) (ins || decide (k = N)) (by omega)
      rw [← chainPath_succ] at hrec
      simp [hkN] at hrec
      simp [scanEntries, hni, hkN]
      rw [hrec]
      have hcond : (N - (k + 1) + 1 ≤ fuel) ↔ (N ≤ fuel + k) := by omega
      simp [hcond]

/-- Full scan result for the chain scenario. -/
lemma chain_scanProjects (N : Nat) (m : Int) :
    scanProjects (chainScanner m) (chainFs N) =
      if N + 1 ≤ (m + 1).toNat then [mkProject (chainScanner m) (chainPath N)]
      else [] := by
  have hstat : (chainFs N).stat ["t"] = .ok true := by
    have hne : (["t"] : List String) ≠ chainPath N ++ [".git"] := by
      intro hc
      have := congrArg List.length hc
      simp [chainPath] at this
    have hchain : isChainDir N ["t"] = true := by simp [isChainDir]
    simp [chainFs, hne, hchain]
  have h0 := chain_scanFolderAux N m (m + 1).toNat 0 false (Nat.zero_le N)
  have hpath0 : chainPath 0 = ["t"] := rfl
  rw [hpath0] at h0
  have hmd : (chainScanner m).maxDepth = m := rfl
  have hbases : (chainScanner m).baseFolders = [["t"]] := rfl
  unfold scanProjects Scanner.Scan scanBases scanFolder
  rw [hmd, hbases]
  simp only [hstat, Int.sub_zero]
  simp only [scanBases, h0]
  by_cases hc : N + 1 ≤ (m + 1).toNat
  · simp [hc, dedupByPath, deduplicateNames, dedupPass, countName]
  · simp [hc, dedupByPath, deduplicateNames, dedupPass]

/-- Cyclic-symlink computation: each visit emits the base project and
recurses once through the symlink, consuming one unit of depth budget. -/
lemma cyc_scanFolderAux (m : Nat) :
    ∀ (fuel : Nat) (ins : Bool),
      scanFolderAux cycFs (cycScanner m) fuel ["t"] ins =
        (List.replicate fuel (mkProject (cycScanner m) ["t"]), []) := by
  intro fuel
  induction fuel with
  | zero => intro ins; simp [scanFolderAux]
  | succ fuel ih =>
    intro ins
    rw [scanFolderAux]
    have hproj : isProject cycFs (cycScanner m) ["t"] = true := rfl
    have hsup : (cycScanner m).ignoreWithinProjects = false := rfl
    have hsym : (cycScanner m).supportSymlinks = true := rfl
    have hni : isIgnored (cycScanner m).ignoredFolders "loop" = false := by
      have : (cycScanner m).ignoredFolders
          = ["node_modules", "out", "typings", "test", "vendor"] := rfl
      rw [this]; decide
    have hrd : cycFs.readDir ["t"] = some [⟨"loop", true, true⟩] := rfl
    have hres : cycFs.resolve ["t", "loop"] = some ["t"] := rfl
    simp [hproj, hsup, hsym, hni, hrd, hres, scanEntries, ih, List.replicate_succ]

/-- With suppression disabled, the inside-project flag has no effect on
the scan result (it is still propagated, but never consulted for
emission). -/
lemma scanFolderAux_inside_irrel (fs : Fs) (s : Scanner)
    (hoff : s.ignoreWithinProjects = false) :
    ∀ (fuel : Nat) (folder : List String) (ins₁ ins₂ : Bool),
      scanFolderAux fs s fuel folder ins₁ = scanFolderAux fs s fuel folder ins₂ := by
  intro fuel
  induction fuel with
  | zero => intro folder ins₁ ins₂; rfl
  | succ fuel ih =>
    intro folder ins₁ ins₂
    rw [scanFolderAux, scanFolderAux, hoff]
    simp only [Bool.not_false, Bool.true_or, Bool.and_true]
    have hch := scanEntries_congr fs s
      (fun p => scanFolderAux fs s fuel p (ins₁ || isProject fs s folder))
      (fun p => scanFolderAux fs s fuel p (ins₂ || isProject fs s folder))
      folder
    cases hrd : fs.readDir folder with
    | none => simp
    | some entries =>
      simp only []
      rw [hch entries (fun p => ih p _ _)]

/-- With suppression enabled, at a folder that qualifies as a project
the inside-project flag changes exactly one thing: whether the folder's
own project is emitted.  The subtree results are identical, because the
marker passed to the children is `true` in both cases. -/
lemma scanFolderAux_suppressed_head (fs : Fs) (s : Scanner) (fuel : Nat)
    (folder : List String)
    (hon : s.ignoreWithinProjects = true)
    (hproj : isProject fs s folder = true) :
    scanFolderAux fs s (fuel + 1) folder false =
      (mkProject s folder :: (scanFolderAux fs s (fuel + 1) folder true).1,
       (scanFolderAux fs s (fuel + 1) folder true).2) := by
  rw [scanFolderAux, scanFolderAux, hproj, hon]
  cases hrd : fs.readDir folder <;> simp

/-- Occurrence counts distribute over append. -/
lemma countName_append (xs ys : List Project) (n : String) :
    countName (xs ++ ys) n = countName xs n + countName ys n := by
  simp [countName, List.filter_append]

/-- Occurrence count in a singleton. -/
lemma countName_single (p : Project) (n : String) :
    countName [p] n = if p.Name = n then 1 else 0 := by
  by_cases h : p.Name = n <;> simp [countName, h]

/-- The imperative single pass of `deduplicateNames` agrees with the
positional specification, given that the running `seen` map holds the
occurrence counts of the processed prefix (for every name the pass ever
consults, i.e. the duplicated ones). -/
lemma dedupPass_eq_specFrom (all : List Project) :
    ∀ (ps pre : List Project) (seen : String → Nat),
      (∀ n, countName all n > 1 → seen n = countName pre n) →
      dedupPass (countName all) ps seen = specDedupFrom all pre ps := by
  intro ps
  induction ps with
  | nil => intro pre seen _; rfl
  | cons p rest ih =>
    intro pre seen hinv
    rw [dedupPass, specDedupFrom]
    by_cases hc : countName all p.Name > 1
    · have hseen : seen p.Name = countName pre p.Name := hinv p.Name hc
      have hk : countName (pre ++ [p]) p.Name = seen p.Name + 1 := by
        rw [countName_append, hseen, countName_single]
        simp
      rw [if_pos hc]
      have htail : dedupPass (countName all) rest
          (fun n => if n = p.Name then seen p.Name + 1 else seen n) =
          specDedupFrom all (pre ++ [p]) rest := by
        apply ih
        intro n hn
        by_cases hnp : n = p.Name
        · subst hnp
          simp [hk]
        · simp only [hnp, if_false]
          rw [hinv n hn, countName_append, countName_single]
          have hpn : p.Name ≠ n := fun h => hnp h.symm
          simp [hpn]
      have hhead :
          (if seen p.Name + 1 = 1 then p
           else { p with Name := p.Name ++ "-" ++ toString (seen p.Name + 1) }) =
          (if countName all p.Name > 1 ∧ 2 ≤ countName (pre ++ [p]) p.Name then
            { p with Name := p.Name ++ "-" ++ toString (countName (pre ++ [p]) p.Name) }
           else p) := by
        rw [hk]
        by_cases h1 : seen p.Name + 1 = 1
        · have h2 : ¬ (2 ≤ seen p.Name + 1) := by omega
          simp [h1, h2]
        · have h2 : 2 ≤ seen p.Name + 1 := by omega
          simp [h1, h2, hc]
      simp only [hhead, htail]
    · have hc' : ¬ (countName all p.Name > 1 ∧ 2 ≤ countName (pre ++ [p]) p.Name) :=
        fun h => hc h.1
      rw [if_neg hc, if_neg hc']
      have htail : dedupPass (countName all) rest seen =
          specDedupFrom all (pre ++ [p]) rest := by
        apply ih
        intro n hn
        have hnp : p.Name ≠ n := by
          intro h
          exact hc (h ▸ hn)
        rw [hinv n hn, countName_append, countName_single]
        simp [hnp]
      simp only [htail]

/-! ## Claim theorems -/

/-- C1.  Depth bound: a recursive call at depth `d > maxDepth` returns an
empty result, and a project nested `N` directory levels below its base is
included in the scan result iff `N ≤ maxDepth` (for every `maxDepth ≥ 0`,
over the canonical chain scenario `t/a/…/a` with the marker at level
`N`); in particular depth 0 (the base itself) is evaluated whenever
`maxDepth ≥ 0`. -/
theorem claim_C1_depth_bound :
    (∀ (fs : Fs) (s : Scanner) (folder : List String) (d : Int) (ins : Bool),
        s.maxDepth < d → scanFolder fs s folder d ins = ([], [])) ∧
    (∀ (N : Nat) (m : Int), 0 ≤ m →
        (mkProject (chainScanner m) (chainPath N) ∈
            scanProjects (chainScanner m) (chainFs N) ↔ (N : Int) ≤ m)) := by
  constructor
  · exact scanFolder_depth_exceeded
  · intro N m hm
    rw [chain_scanProjects]
    by_cases h : (N : Int) ≤ m
    · have hc : N + 1 ≤ (m + 1).toNat := by omega
      simp [hc, h]
    · have hc : ¬ (N + 1 ≤ (m + 1).toNat) := by omega
      simp [hc, h]

/-- C1 witness: depth 3 exceeds maxDepth 2 and the call returns empty;
with maxDepth 4 the project three levels deep is included. -/
theorem claim_C1_depth_bound_witness :
    ((chainScanner 2).maxDepth < 3 ∧
        scanFolder (chainFs 3) (chainScanner 2) (chainPath 3) 3 false = ([], [])) ∧
    (0 ≤ (4 : Int) ∧
        (mkProject (chainScanner 4) (chainPath 3) ∈
            scanProjects (chainScanner 4) (chainFs 3) ↔ (3 : Int) ≤ 4)) :=
  ⟨⟨by decide, claim_C1_depth_bound.1 (chainFs 3) (chainScanner 2)
      (chainPath 3) 3 false (by decide)⟩,
   ⟨by decide, claim_C1_depth_bound.2 3 4 (by decide)⟩⟩

/-- C2.  Nested-project suppression: (1) with suppression off the
inside-project marker never changes the result (it is propagated but
only emission would consult it); (2) with suppression on, at a folder
that qualifies, being inside an already-matched ancestor suppresses
exactly the emission of that folder's project, while the subtree is
scanned identically because the marker is propagated as `true` to all
descendants regardless of the suppressed emission; (3) concretely, with
a parent project at `t/p` and a nested one at `t/p/sub`, suppression off
yields both and suppression on yields only the parent. -/
theorem claim_C2_nested_suppression :
    (∀ (fs : Fs) (s : Scanner) (fuel : Nat) (folder : List String)
        (ins₁ ins₂ : Bool), s.ignoreWithinProjects = false →
        scanFolderAux fs s fuel folder ins₁ = scanFolderAux fs s fuel folder ins₂) ∧
    (∀ (fs : Fs) (s : Scanner) (fuel : Nat) (folder : List String),
        s.ignoreWithinProjects = true → isProject fs s folder = true →
        scanFolderAux fs s (fuel + 1) folder false =
          (mkProject s folder :: (scanFolderAux fs s (fuel + 1) folder true).1,
           (scanFolderAux fs s (fuel + 1) folder true).2)) ∧
    (scanProjects (nestScanner false) nestFs =
        [mkProject (nestScanner false) ["t", "p"],
         mkProject (nestScanner false) ["t", "p", "sub"]] ∧
     scanProjects (nestScanner true) nestFs =
        [mkProject (nestScanner true) ["t", "p"]]) := by
  refine ⟨?_, ?_, ?_, ?_⟩
  · intro fs s fuel folder ins₁ ins₂ hoff
    exact scanFolderAux_inside_irrel fs s hoff fuel folder ins₁ ins₂
  · intro fs s fuel folder hon hproj
    exact scanFolderAux_suppressed_head fs s fuel folder hon hproj
  · decide
  · decide

/-- C2 witness: the two universally quantified conjuncts instantiated in
the nested scenario. -/
theorem claim_C2_nested_suppression_witness :
    ((nestScanner false).ignoreWithinProjects = false ∧
        scanFolderAux nestFs (nestScanner false) 2 ["t", "p"] false =
          scanFolderAux nestFs (nestScanner false) 2 ["t", "p"] true) ∧
    ((nestScanner true).ignoreWithinProjects = true ∧
        isProject nestFs (nestScanner true) ["t", "p"] = true ∧
        scanFolderAux nestFs (nestScanner true) (1 + 1) ["t", "p"] false =
          (mkProject (nestScanner true) ["t", "p"] ::
              (scanFolderAux nestFs (nestScanner true) (1 + 1) ["t", "p"] true).1,
           (scanFolderAux nestFs (nestScanner true) (1 + 1) ["t", "p"] true).2)) :=
  ⟨⟨by decide, claim_C2_nested_suppression.1 nestFs (nestScanner false) 2
      ["t", "p"] false true (by decide)⟩,
   ⟨by decide, by decide, claim_C2_nested_suppression.2.1 nestFs
      (nestScanner true) 1 ["t", "p"] (by decide) (by decide)⟩⟩

/-- C3.  Name deduplication: the single imperative pass of
`deduplicateNames` computes, in original list order, exactly the
positional specification — the first occurrence of each name is
unchanged and the k-th occurrence (k ≥ 2) of a duplicated name becomes
`name-k` — and on the discovery order `api@x, api@y` the result is
`api@x, api-2@y` (never the reverse assignment). -/
theorem claim_C3_name_dedup :
    (∀ ps : List Project, deduplicateNames ps = specDedupNames ps) ∧
    deduplicateNames [namedProject "api" ["x"], namedProject "api" ["y"]] =
      [namedProject "api" ["x"], namedProject "api-2" ["y"]] := by
  constructor
  · intro ps
    unfold deduplicateNames specDedupNames
    apply dedupPass_eq_specFrom
    intro n _
    simp [countName]
  · decide

/-- With a negative maximum depth every base's depth budget is already
exhausted at depth 0, so the bases contribute no projects and only the
not-exist reports survive. -/
lemma scanBases_neg_depth (fs : Fs) (s : Scanner) (h : s.maxDepth < 0) :
    ∀ bs : List (List String),
      scanBases fs s bs =
        ([], (bs.filter (fun b => fs.stat b = .notExist)).map
          (fun b => (b, ScanErrKind.baseNotExist))) := by
  intro bs
  induction bs with
  | nil => rfl
  | cons b bs ih =>
    rw [scanBases, ih]
    by_cases hb : fs.stat b = .notExist
    · simp [hb]
    · have hz : scanFolder fs s b 0 false = ([], []) :=
        scanFolder_depth_exceeded fs s b 0 false (by omega)
      simp [hb, hz]

/-- C4 counterexample: a scanner configured with `maxDepth = -1` is not
rejected — `Scan` returns success with an empty project list, so no
fatal `InvalidConfiguration` error exists in the core. -/
theorem claim_C4_counterexample :
    (chainScanner (-1)).maxDepth < 0 ∧
      Scanner.Scan (chainScanner (-1)) (chainFs 1) =
        Except.ok (([] : List Project), ([] : List ScanReport)) :=
  ⟨by decide, rfl⟩

/-- C4 (amended).  The scanner core never rejects a negative maximum
depth: `Scan` with `maxDepth < 0` returns success, with zero projects
(every recursive call's depth budget is exhausted immediately) and only
not-exist reports for missing bases.  The rejection of a caller-supplied
negative depth exists only in the CLI `scan` command, whose `--depth`
flag validation fails before any scanner is constructed. -/
theorem claim_C4_invalid_config :
    (∀ (fs : Fs) (s : Scanner), s.maxDepth < 0 →
        Scanner.Scan s fs =
          Except.ok (([] : List Project),
            (s.baseFolders.filter (fun b => fs.stat b = .notExist)).map
              (fun b => (b, ScanErrKind.baseNotExist)))) ∧
    (∀ d : Int, d < 0 → (runScanDepthCheck d).isSome = true) := by
  constructor
  · intro fs s h
    unfold Scanner.Scan
    rw [scanBases_neg_depth fs s h]
    rfl
  · intro d h
    simp [runScanDepthCheck, h]

/-- C4 witness: the amended theorem at `maxDepth = -1` over the chain
filesystem, and the CLI check at `--depth = -5`. -/
theorem claim_C4_invalid_config_witness :
    ((chainScanner (-1)).maxDepth < 0 ∧
        Scanner.Scan (chainScanner (-1)) (chainFs 1) =
          Except.ok (([] : List Project),
            ((chainScanner (-1)).baseFolders.filter
                (fun b => (chainFs 1).stat b = .notExist)).map
              (fun b => (b, ScanErrKind.baseNotExist)))) ∧
    ((-5 : Int) < 0 ∧ (runScanDepthCheck (-5)).isSome = true) :=
  ⟨⟨by decide, claim_C4_invalid_config.1 (chainFs 1) (chainScanner (-1)) (by decide)⟩,
   ⟨by decide, claim_C4_invalid_config.2 (-5) (by decide)⟩⟩

/-- Processing a list of bases decomposes over append. -/
lemma scanBases_append (fs : Fs) (s : Scanner) (xs ys : List (List String)) :
    scanBases fs s (xs ++ ys) =
      ((scanBases fs s xs).1 ++ (scanBases fs s ys).1,
       (scanBases fs s xs).2 ++ (scanBases fs s ys).2) := by
  induction xs with
  | nil => simp [scanBases]
  | cons x xs ih =>
    rw [List.cons_append, scanBases, scanBases, ih]
    by_cases hx : fs.stat x = .notExist <;> simp [hx]

/-- C5.  No hard error for the whole job: `Scan` always succeeds; a base
that does not exist is reported and skipped, contributing zero projects
while the other bases' results are kept; a directory that cannot be
listed is reported and its subtree skipped (the folder's own project, if
any, is still emitted); a symlink that fails to resolve is reported and
that child skipped. -/
theorem claim_C5_no_hard_error :
    (∀ (s : Scanner) (fs : Fs), ∃ r, Scanner.Scan s fs = Except.ok r) ∧
    (∀ (fs : Fs) (s : Scanner) (bs1 bs2 : List (List String)) (b : List String),
        fs.stat b = .notExist →
        scanBases fs s (bs1 ++ b :: bs2) =
          ((scanBases fs s (bs1 ++ bs2)).1,
           (scanBases fs s bs1).2 ++
             (b, ScanErrKind.baseNotExist) :: (scanBases fs s bs2).2)) ∧
    (∀ (fs : Fs) (s : Scanner) (fuel : Nat) (folder : List String) (ins : Bool),
        fs.readDir folder = none →
        scanFolderAux fs s (fuel + 1) folder ins =
          ((if isProject fs s folder && (!s.ignoreWithinProjects || !ins) then
              [mkProject s folder]
            else []),
           [(folder, ScanErrKind.readDirFailed)])) ∧
    (∀ (fs : Fs) (s : Scanner)
        (child : List String → List Project × List ScanReport)
        (folder : List String) (e : DirEntry) (es : List DirEntry),
        e.isDir = true →
        (['.'].isPrefixOf e.name.data && e.name ≠ ".vscode") = false →
        isIgnored s.ignoredFolders e.name = false →
        e.isSymlink = true → s.supportSymlinks = true →
        fs.resolve (folder ++ [e.name]) = none →
        scanEntries fs s child folder (e :: es) =
          ((scanEntries fs s child folder es).1,
           (folder ++ [e.name], ScanErrKind.symlinkFailed) ::
             (scanEntries fs s child folder es).2)) := by
  refine ⟨?_, ?_, ?_, ?_⟩
  · intro s fs
    exact ⟨_, rfl⟩
  · intro fs s bs1 bs2 b hb
    rw [scanBases_append, scanBases_append, scanBases]
    simp [hb]
  · intro fs s fuel folder ins h
    rw [scanFolderAux]
    simp [h]
  · intro fs s child folder e es hdir hdot hign hsym hsup hres
    rw [scanEntries]
    simp only [hdir, hdot, hign, hsym, hsup, hres, Bool.not_true, Bool.not_false,
      Bool.false_eq_true, if_false, if_true, ite_false, ite_true]

/-- C5 witness: a missing base next to a good base in the nested
scenario, an unlistable folder, and an unresolvable symlink, all at
concrete inputs. -/
theorem claim_C5_no_hard_error_witness :
    (∃ r, Scanner.Scan (nestScanner false) nestFs = Except.ok r) ∧
    (nestFs.stat ["miss"] = .notExist ∧
      scanBases nestFs (nestScanner false) ([] ++ ["miss"] :: [["t"]]) =
        ((scanBases nestFs (nestScanner false) ([] ++ [["t"]])).1,
         (scanBases nestFs (nestScanner false) []).2 ++
           (["miss"], ScanErrKind.baseNotExist) ::
             (scanBases nestFs (nestScanner false) [["t"]]).2)) ∧
    (nestFs.readDir ["t", "q"] = none ∧
      scanFolderAux nestFs (nestScanner false) (0 + 1) ["t", "q"] false =
        ((if isProject nestFs (nestScanner false) ["t", "q"]
              && (!(nestScanner false).ignoreWithinProjects || !false) then
            [mkProject (nestScanner false) ["t", "q"]]
          else []),
         [(["t", "q"], ScanErrKind.readDirFailed)])) ∧
    (nestFs.resolve (["t"] ++ ["link"]) = none ∧
      scanEntries nestFs (cycScanner 2)
          (fun p => scanFolderAux nestFs (cycScanner 2) 1 p false) ["t"]
          [⟨"link", true, true⟩] =
        ((scanEntries nestFs (cycScanner 2)
            (fun p => scanFolderAux nestFs (cycScanner 2) 1 p false) ["t"] []).1,
         (["t"] ++ ["link"], ScanErrKind.symlinkFailed) ::
           (scanEntries nestFs (cycScanner 2)
             (fun p => scanFolderAux nestFs (cycScanner 2) 1 p false) ["t"] []).2)) :=
  ⟨claim_C5_no_hard_error.1 (nestScanner false) nestFs,
   ⟨by decide, claim_C5_no_hard_error.2.1 nestFs (nestScanner false) []
      [["t"]] ["miss"] (by decide)⟩,
   ⟨by decide, claim_C5_no_hard_error.2.2.1 nestFs (nestScanner false) 0
      ["t", "q"] false (by decide)⟩,
   ⟨by decide, claim_C5_no_hard_error.2.2.2 nestFs (cycScanner 2)
      (fun p => scanFolderAux nestFs (cycScanner 2) 1 p false) ["t"]
      ⟨"link", true, true⟩ [] (by decide) (by decide) (by decide) (by decide)
      (by decide) (by decide)⟩⟩

/-- The deduplication pass rewrites only names: root paths are kept,
positionally. -/
lemma dedupPass_rootPaths (count : String → Nat) :
    ∀ (ps : List Project) (seen : String → Nat),
      (dedupPass count ps seen).map (fun p => p.RootPath) =
        ps.map (fun p => p.RootPath) := by
  intro ps
  induction ps with
  | nil => intro seen; rfl
  | cons p rest ih =>
    intro seen
    rw [dedupPass]
    by_cases hc : count p.Name > 1
    · rw [if_pos hc]
      by_cases h1 : seen p.Name + 1 = 1 <;> simp [h1, ih]
    · rw [if_neg hc]
      simp [ih]

/-- Every output of `deduplicateNames` has the root path of some input
project. -/
lemma deduplicateNames_rootPath_mem {ps : List Project} {p : Project}
    (hp : p ∈ deduplicateNames ps) :
    ∃ q ∈ ps, q.RootPath = p.RootPath := by
  have hmap := dedupPass_rootPaths (countName ps) ps (fun _ => 0)
  have : p.RootPath ∈ (deduplicateNames ps).map (fun p => p.RootPath) :=
    List.mem_map_of_mem _ hp
  rw [deduplicateNames] at this
  rw [hmap] at this
  obtain ⟨q, hq, hqe⟩ := List.mem_map.mp this
  exact ⟨q, hq, hqe⟩

/-- Path deduplication returns a subset of its input. -/
lemma dedupByPath_subset :
    ∀ (ps : List Project) (seen : List (List String)) (p : Project),
      p ∈ dedupByPath ps seen → p ∈ ps := by
  intro ps
  induction ps with
  | nil => intro seen p hp; simp [dedupByPath] at hp
  | cons q rest ih =>
    intro seen p hp
    rw [dedupByPath] at hp
    by_cases hq : q.RootPath ∈ seen
    · rw [if_pos hq] at hp
      exact List.mem_cons_of_mem q (ih _ p hp)
    · rw [if_neg hq] at hp
      rcases List.mem_cons.mp hp with h | h
      · exact h ▸ List.mem_cons_self q rest
      · exact List.mem_cons_of_mem q (ih _ p h)

/-- Every project of the base loop comes from the scan of one of the
bases. -/
lemma scanBases_mem (fs : Fs) (s : Scanner) :
    ∀ (bs : List (List String)) (p : Project),
      p ∈ (scanBases fs s bs).1 →
      ∃ b ∈ bs, p ∈ (scanFolder fs s b 0 false).1 := by
  intro bs
  induction bs with
  | nil => intro p hp; simp [scanBases] at hp
  | cons b rest ih =>
    intro p hp
    rw [scanBases] at hp
    by_cases hb : fs.stat b = .notExist
    · rw [if_pos hb] at hp
      obtain ⟨c, hc, hcp⟩ := ih p hp
      exact ⟨c, List.mem_cons_of_mem b hc, hcp⟩
    · rw [if_neg hb] at hp
      rcases List.mem_append.mp hp with h | h
      · exact ⟨b, List.mem_cons_self b rest, h⟩
      · obtain ⟨c, hc, hcp⟩ := ih p h
        exact ⟨c, List.mem_cons_of_mem b hc, hcp⟩

/-- Without symlink following, every project produced by the child loop
extends the folder by admissible segments only (including the child's
own name, which passed the dot and ignore checks). -/
lemma scanEntries_paths (fs : Fs) (s : Scanner)
    (child : List String → List Project × List ScanReport)
    (folder : List String)
    (hsym : s.supportSymlinks = false)
    (hchild : ∀ q p, p ∈ (child q).1 →
      ∃ segs, p.RootPath = q ++ segs ∧ ∀ seg ∈ segs, goodSeg s seg) :
    ∀ (es : List DirEntry) (p : Project),
      p ∈ (scanEntries fs s child folder es).1 →
      ∃ segs, p.RootPath = folder ++ segs ∧ ∀ seg ∈ segs, goodSeg s seg := by
  intro es
  induction es with
  | nil => intro p hp; simp [scanEntries] at hp
  | cons e es ih =>
    intro p hp
    rw [scanEntries] at hp
    cases hdir : e.isDir with
    | false =>
      rw [hdir] at hp
      exact ih p hp
    | true =>
      rw [hdir] at hp
      simp only [Bool.not_true, Bool.false_eq_true, if_false] at hp
      by_cases hdot : (['.'].isPrefixOf e.name.data && e.name ≠ ".vscode") = true
      · rw [if_pos hdot] at hp
        exact ih p hp
      · rw [if_neg hdot] at hp
        by_cases hign : isIgnored s.ignoredFolders e.name = true
        · rw [if_pos hign] at hp
          exact ih p hp
        · rw [if_neg hign] at hp
          have hgood : goodSeg s e.name :=
            ⟨Bool.eq_false_iff.mpr (fun h => hdot h),
             Bool.eq_false_iff.mpr (fun h => hign h)⟩
          cases hs : e.isSymlink with
          | true =>
            rw [hs] at hp
            rw [hsym] at hp
            simp only [Bool.not_false, if_true] at hp
            exact ih p hp
          | false =>
            rw [hs] at hp
            simp only [Bool.false_eq_true, if_false] at hp
            rcases List.mem_append.mp hp with h | h
            · obtain ⟨segs, hseg, hgoods⟩ := hchild (folder ++ [e.name]) p h
              refine ⟨e.name :: segs, ?_, ?_⟩
              · rw [hseg, List.append_assoc]
                rfl
              · intro seg hsg
                rcases List.mem_cons.mp hsg with h' | h'
                · exact h' ▸ hgood
                · exact hgoods seg h'
            · exact ih p h

/-- Without symlink following, every project of a subtree scan lies at
the scanned folder or below it along admissible segments. -/
lemma scanFolderAux_paths (fs : Fs) (s : Scanner)
    (hsym : s.supportSymlinks = false) :
    ∀ (fuel : Nat) (folder : List String) (ins : Bool) (p : Project),
      p ∈ (scanFolderAux fs s fuel folder ins).1 →
      ∃ segs, p.RootPath = folder ++ segs ∧ ∀ seg ∈ segs, goodSeg s seg := by
  intro fuel
  induction fuel with
  | zero => intro folder ins p hp; simp [scanFolderAux] at hp
  | succ fuel ih =>
    intro folder ins p hp
    rw [scanFolderAux] at hp
    cases hrd : fs.readDir folder with
    | none =>
      rw [hrd] at hp
      simp only [] at hp
      by_cases hc : (isProject fs s folder &&
          (!s.ignoreWithinProjects || !ins)) = true
      · rw [if_pos hc] at hp
        rcases List.mem_singleton.mp hp with h
        refine ⟨[], ?_, by simp⟩
        rw [h]
        simp [mkProject]
      · rw [if_neg hc] at hp
        simp at hp
    | some entries =>
      rw [hrd] at hp
      simp only [] at hp
      rcases List.mem_append.mp hp with h | h
      · by_cases hc : (isProject fs s folder &&
            (!s.ignoreWithinProjects || !ins)) = true
        · rw [if_pos hc] at h
          rcases List.mem_singleton.mp h with h'
          refine ⟨[], ?_, by simp⟩
          rw [h']
          simp [mkProject]
        · rw [if_neg hc] at h
          simp at h
      · exact scanEntries_paths fs s _ folder hsym
          (fun q hq => ih q (ins || isProject fs s folder) hq) entries p h

/-- C6 counterexample: with the default ignore list (which contains
`node_modules`) and the base folder `node_modules/x`, the scan emits a
project whose root path lies strictly under a directory whose base name
is verbatim in the ignore-name list — so the claimed universal exclusion
does not hold for all scans. -/
theorem claim_C6_counterexample :
    "node_modules" ∈ underIgnoredScanner.ignoredFolders ∧
    isIgnored underIgnoredScanner.ignoredFolders "node_modules" = true ∧
    scanProjects underIgnoredScanner underIgnoredFs =
      [mkProject underIgnoredScanner ["node_modules", "x"]] ∧
    "node_modules" ∈
      (mkProject underIgnoredScanner ["node_modules", "x"]).RootPath.dropLast := by
  refine ⟨by decide, by decide, by decide, by decide⟩

/-- C6 (amended).  Traversal skip rules and exclusion below the base:
(1) a child directory whose name starts with a dot and is not exactly
`.vscode` is skipped; (2) a child directory whose name matches the
ignore list (exact equality, or single-segment glob for entries
containing a `*` wildcard, per `isIgnored`) is skipped; (3) provided
symlink following is disabled, every emitted project's root path is one
of the configured base folders extended only by admissible segments —
so no project lies under an ignored-name or non-`.vscode` dot directory
strictly below its base.  (Bases themselves are exempt from these
checks, and symlink resolution can escape the base subtree, which is
what the counterexample and the symlink proviso account for.) -/
theorem claim_C6_ignore_exclusion :
    (∀ (fs : Fs) (s : Scanner)
        (child : List String → List Project × List ScanReport)
        (folder : List String) (e : DirEntry) (es : List DirEntry),
        e.isDir = true →
        (['.'].isPrefixOf e.name.data && e.name ≠ ".vscode") = true →
        scanEntries fs s child folder (e :: es) =
          scanEntries fs s child folder es) ∧
    (∀ (fs : Fs) (s : Scanner)
        (child : List String → List Project × List ScanReport)
        (folder : List String) (e : DirEntry) (es : List DirEntry),
        e.isDir = true →
        isIgnored s.ignoredFolders e.name = true →
        scanEntries fs s child folder (e :: es) =
          scanEntries fs s child folder es) ∧
    (∀ (fs : Fs) (s : Scanner), s.supportSymlinks = false →
        ∀ p ∈ scanProjects s fs, ∃ b ∈ s.baseFolders, ∃ segs,
          p.RootPath = b ++ segs ∧ ∀ seg ∈ segs, goodSeg s seg) := by
  refine ⟨?_, ?_, ?_⟩
  · intro fs s child folder e es hdir hdot
    rw [scanEntries]
    simp only [hdir, hdot, Bool.not_true, Bool.false_eq_true, if_false, if_true]
  · intro fs s child folder e es hdir hign
    rw [scanEntries]
    by_cases hdot : (['.'].isPrefixOf e.name.data && e.name ≠ ".vscode") = true
    · simp only [hdir, hdot, Bool.not_true, Bool.false_eq_true, if_false, if_true]
    · simp only [hdir, hign, Bool.not_true, Bool.false_eq_true, if_false, if_true,
        Bool.eq_false_iff.mpr hdot]
  · intro fs s hsym p hp
    have hscan : scanProjects s fs =
        deduplicateNames (dedupByPath (scanBases fs s s.baseFolders).1 []) := rfl
    rw [hscan] at hp
    obtain ⟨q, hq, hqroot⟩ := deduplicateNames_rootPath_mem hp
    have hq' := dedupByPath_subset _ _ _ hq
    obtain ⟨b, hb, hbq⟩ := scanBases_mem fs s s.baseFolders q hq'
    obtain ⟨segs, hsegs, hgood⟩ :=
      scanFolderAux_paths fs s hsym _ b false q hbq
    exact ⟨b, hb, segs, hqroot ▸ hsegs, hgood⟩

/-- C6 witness: the three amended conjuncts instantiated — a `.hidden`
child is skipped, a `node_modules` child is skipped, and the nested
scenario's emitted parent project decomposes as base plus admissible
segments. -/
theorem claim_C6_ignore_exclusion_witness :
    ((⟨".hidden", true, false⟩ : DirEntry).isDir = true ∧
      scanEntries nestFs (nestScanner false)
          (fun p => scanFolderAux nestFs (nestScanner false) 1 p false) ["t"]
          [⟨".hidden", true, false⟩] =
        scanEntries nestFs (nestScanner false)
          (fun p => scanFolderAux nestFs (nestScanner false) 1 p false) ["t"] []) ∧
    (isIgnored (nestScanner false).ignoredFolders "node_modules" = true ∧
      scanEntries nestFs (nestScanner false)
          (fun p => scanFolderAux nestFs (nestScanner false) 1 p false) ["t"]
          [⟨"node_modules", true, false⟩] =
        scanEntries nestFs (nestScanner false)
          (fun p => scanFolderAux nestFs (nestScanner false) 1 p false) ["t"] []) ∧
    ((nestScanner false).supportSymlinks = false ∧
      mkProject (nestScanner false) ["t", "p"] ∈
        scanProjects (nestScanner false) nestFs ∧
      ∃ b ∈ (nestScanner false).baseFolders, ∃ segs,
        (mkProject (nestScanner false) ["t", "p"]).RootPath = b ++ segs ∧
          ∀ seg ∈ segs, goodSeg (nestScanner false) seg) :=
  ⟨⟨rfl, claim_C6_ignore_exclusion.1 nestFs (nestScanner false) _ ["t"]
      ⟨".hidden", true, false⟩ [] (by decide) (by decide)⟩,
   ⟨by decide, claim_C6_ignore_exclusion.2.1 nestFs (nestScanner false) _ ["t"]
      ⟨"node_modules", true, false⟩ [] (by decide) (by decide)⟩,
   ⟨by decide, by decide,
    claim_C6_ignore_exclusion.2.2 nestFs (nestScanner false) (by decide)
      (mkProject (nestScanner false) ["t", "p"]) (by decide)⟩⟩

/-- C9.  Termination: the traversal is a total function whose recursion
is bounded by the depth budget — a call at depth `d > maxDepth` returns
immediately, and on a filesystem whose symlink graph is cyclic (every
directory's `loop` link resolves back to the base) a symlink-following
scan with maximum depth `m` still terminates, visiting the base exactly
`m + 1` times (depth `0` through `m`). -/
theorem claim_C9_termination :
    (∀ (fs : Fs) (s : Scanner) (folder : List String) (d : Int) (ins : Bool),
        s.maxDepth < d → scanFolder fs s folder d ins = ([], [])) ∧
    (∀ (m : Nat),
        scanFolder cycFs (cycScanner m) ["t"] 0 false =
          (List.replicate (m + 1) (mkProject (cycScanner m) ["t"]), [])) := by
  constructor
  · exact scanFolder_depth_exceeded
  · intro m
    have hmd : (cycScanner m).maxDepth = (m : Int) := rfl
    unfold scanFolder
    rw [hmd]
    have hfuel : ((m : Int) + 1 - 0).toNat = m + 1 := by omega
    rw [hfuel]
    exact cyc_scanFolderAux m (m + 1) false

/-- C9 witness: beyond-depth call returns empty at a concrete input, and
the cyclic scan at maxDepth 2 yields exactly three visits. -/
theorem claim_C9_termination_witness :
    ((cycScanner 2).maxDepth < 5 ∧
        scanFolder cycFs (cycScanner 2) ["t"] 5 false = ([], [])) ∧
    scanFolder cycFs (cycScanner 2) ["t"] 0 false =
      (List.replicate 3 (mkProject (cycScanner 2) ["t"]), []) :=
  ⟨⟨by decide, claim_C9_termination.1 cycFs (cycScanner 2) ["t"] 5 false (by decide)⟩,
   claim_C9_termination.2 2⟩

/-- C7.  Catalog merge order and filters: when both record sets load,
the merged list is exactly the specification-side merge — favorites
first, then each requested kind's bucket in the canonical order
Favorite, Git, SVN, Mercurial, VSCode, Any, preserving within-kind input
order; with no kind filter set all kinds are included; and the tag
filter with an empty tag returns its input unchanged. -/
theorem claim_C7_merge_order :
    (∀ (store : Storage) (f : TypeFilter) (pl : ProjectList)
        (cache : CachedProjects),
        store.LoadProjects = .ok pl → store.LoadCache = .ok cache →
        LoadFilteredProjects store f = .ok (specMerge pl.Projects cache f)) ∧
    (∀ (favs : List Project) (cache : CachedProjects) (f : TypeFilter),
        f.ShowAll = true →
        specMerge favs cache f =
          favs ++ cache.Git ++ cache.SVN ++ cache.Mercurial
            ++ cache.VSCode ++ cache.Any) ∧
    (∀ ps : List Project, FilterByTag ps "" = ps) := by
  refine ⟨?_, ?_, ?_⟩
  · intro store f pl cache hp hc
    rcases f with ⟨fav, git, svn, hg, vsc, anyf⟩
    cases fav <;> cases git <;> cases svn <;> cases hg <;> cases vsc <;> cases anyf <;>
      simp [LoadFilteredProjects, specMerge, canonicalKindOrder, kindRequested,
        kindBucket, TypeFilter.ShowAll, hp, hc]
  · intro favs cache f h
    simp [specMerge, canonicalKindOrder, kindRequested, kindBucket, h]
  · intro ps
    simp [FilterByTag]

/-- C7 witness: the merge equation at a concrete store with the empty
filter. -/
theorem claim_C7_merge_order_witness :
    mergeStore.LoadProjects = .ok ⟨[namedProject "fav" ["f"]], .Favorite⟩ ∧
    mergeStore.LoadCache = .ok ⟨[namedProject "g" ["g"]], [namedProject "s" ["s"]],
      [namedProject "h" ["h"]], [namedProject "v" ["v"]],
      [namedProject "a" ["a"]]⟩ ∧
    LoadFilteredProjects mergeStore noFilter =
      .ok (specMerge [namedProject "fav" ["f"]]
        ⟨[namedProject "g" ["g"]], [namedProject "s" ["s"]],
         [namedProject "h" ["h"]], [namedProject "v" ["v"]],
         [namedProject "a" ["a"]]⟩ noFilter) :=
  ⟨rfl, rfl,
   claim_C7_merge_order.1 mergeStore noFilter
     ⟨[namedProject "fav" ["f"]], .Favorite⟩
     ⟨[namedProject "g" ["g"]], [namedProject "s" ["s"]],
      [namedProject "h" ["h"]], [namedProject "v" ["v"]],
      [namedProject "a" ["a"]]⟩ rfl rfl⟩

/-- C8.  Path expansion round trip: for every home directory and every
path that lies within it (and carries no other `~`/`$home`/`$HOME`
occurrence that expansion would rewrite), expanding the collapsed path
returns the original path.  Both functions are pure total Lean
functions by construction. -/
theorem claim_C8_expand_collapse :
    ∀ (home p : List Char),
      home.isPrefixOf p = true →
      '~' ∉ p →
      homeLower.isPrefixOf p = false →
      homeUpper.isPrefixOf p = false →
      Expand home (Collapse home p) = p := by
  intro home p hpre _htl hlo hhi
  obtain ⟨t, ht⟩ : home <+: p := List.isPrefixOf_iff_prefix.mp hpre
  rw [Collapse, if_pos hpre, replaceFirst_head _ _ _ hpre]
  have hdrop : p.drop home.length = t := by
    rw [← ht]
    exact List.drop_left home t
  rw [hdrop, List.singleton_append]
  rw [Expand]
  have h1 : (['~'] : List Char).isPrefixOf ('~' :: t) = true :=
    List.isPrefixOf_iff_prefix.mpr ⟨t, rfl⟩
  rw [if_pos h1, replaceFirst_head _ _ _ h1]
  have h2 : home ++ ('~' :: t).drop (['~'] : List Char).length = p := by
    simpa using ht
  rw [h2]
  have hlo' : homeLower.isPrefixOf p ≠ true := by rw [hlo]; simp
  have hhi' : homeUpper.isPrefixOf p ≠ true := by rw [hhi]; simp
  rw [if_neg hlo', if_neg hhi']

/-- C8 witness: the round trip at `home = /u`, `p = /u/a`. -/
theorem claim_C8_expand_collapse_witness :
    (['/', 'u'] : List Char).isPrefixOf ['/', 'u', '/', 'a'] = true ∧
    '~' ∉ (['/', 'u', '/', 'a'] : List Char) ∧
    homeLower.isPrefixOf ['/', 'u', '/', 'a'] = false ∧
    homeUpper.isPrefixOf ['/', 'u', '/', 'a'] = false ∧
    Expand ['/', 'u'] (Collapse ['/', 'u'] ['/', 'u', '/', 'a'])
      = ['/', 'u', '/', 'a'] :=
  ⟨by decide, by decide, by decide, by decide,
   claim_C8_expand_collapse ['/', 'u'] ['/', 'u', '/', 'a']
     (by decide) (by decide) (by decide) (by decide)⟩

/-- C10.  Name-collision edge case: on input names `api`, `api-2`, `api`
(in that order) the deduplication pass renames the third project to
`api-2`, so the output contains two projects with the identical name
`api-2` — output names are not globally unique. -/
theorem claim_C10_name_collision :
    (deduplicateNames collisionInput).map (fun p => p.Name)
        = ["api", "api-2", "api-2"] ∧
    ¬ ((deduplicateNames collisionInput).map (fun p => p.Name)).Nodup := by
  constructor
  · decide
  · decide

end Projector
